import Mathlib

/-!
Verification development for the AdventureWorks MCP server
(`src/mcp/server.ts`, `src/mcp/tools/queryTools.ts`, `src/mcp/tools/schemaTools.ts`,
`src/mcp/tools/testTools.ts`, `src/features/schema.ts`).

The embedding is a shallow translation of the TypeScript sources:
strings are `String`/`List Char`, the SQL executor is a parameter
(`String → ExecOutcome` for `db.select`, a fixed `DB` record for the
schema service), thrown exceptions are `Except.error`, and the MCP tool
registry is the list of registered tool names.
-/

/-! ## Character classes (JS regexp `\s` restricted to ASCII, and `\w`) -/

/-- ASCII whitespace, as stripped by `String.prototype.trim` on the inputs
considered here (space, tab, newline, carriage return). -/
def isWsChar (c : Char) : Bool :=
  c == ' ' || c == '\t' || c == '\n' || c == '\r'

/-- JS regexp word character `\w` = `[A-Za-z0-9_]`, the class that the `\b`
boundaries of `containsForbiddenTokens` respect. -/
def isWordChar (c : Char) : Bool :=
  ('A' ≤ c && c ≤ 'Z') || ('a' ≤ c && c ≤ 'z') || ('0' ≤ c && c ≤ '9') || c == '_'

/-- The lower-to-upper table of ASCII. -/
def upPairs : List (Char × Char) :=
  [('a', 'A'), ('b', 'B'), ('c', 'C'), ('d', 'D'), ('e', 'E'), ('f', 'F'),
   ('g', 'G'), ('h', 'H'), ('i', 'I'), ('j', 'J'), ('k', 'K'), ('l', 'L'),
   ('m', 'M'), ('n', 'N'), ('o', 'O'), ('p', 'P'), ('q', 'Q'), ('r', 'R'),
   ('s', 'S'), ('t', 'T'), ('u', 'U'), ('v', 'V'), ('w', 'W'), ('x', 'X'),
   ('y', 'Y'), ('z', 'Z')]

/-- ASCII upper-casing of one character, the effect of
`String.prototype.toUpperCase` on the ASCII inputs considered here:
a lower-case letter maps to its upper-case partner, anything else is
unchanged. -/
def upChar (c : Char) : Char :=
  ((upPairs.find? (fun p => p.1 == c)).map Prod.snd).getD c

/-- `sql.toUpperCase()` on the character list. -/
def upperChars (l : List Char) : List Char := l.map upChar

/-- Left part of `String.prototype.trim`. -/
def ltrim (l : List Char) : List Char := l.dropWhile isWsChar

/-- Right part of `String.prototype.trim`. -/
def rtrim (l : List Char) : List Char := (l.reverse.dropWhile isWsChar).reverse

/-- `String.prototype.trim` (ASCII whitespace). -/
def trimChars (l : List Char) : List Char := rtrim (ltrim l)

/-! ## Comment stripping (`stripComments` in `queryTools.ts`)

the two global regexp replacements of the source: each non-nested block
comment becomes one space (an unterminated comment opener is
left untouched, since the regexp requires the closing `*/`), then each
line comment from `--` to the end of its line becomes one space. -/

/-- Scans for the first `*/` and returns the remainder after it. -/
def findClose : List Char → Option (List Char)
  | [] => none
  | '*' :: rest =>
    match rest with
    | '/' :: rest2 => some rest2
    | _ => findClose rest
  | _ :: rest => findClose rest

/-- Drops characters up to (but not including) the first newline:
the extent of the regexp match `--.*$` past the `--`. -/
def dropLineComment : List Char → List Char
  | [] => []
  | '\n' :: rest => '\n' :: rest
  | _ :: rest => dropLineComment rest

/-- Fuelled scan replacing each `/* ... */` with a single space; the fuel
(initially the input length) only bounds the recursion and never runs out. -/
def stripBlockFuel : Nat → List Char → List Char
  | 0, l => l
  | _ + 1, [] => []
  | _ + 1, [c] => [c]
  | fuel + 1, c1 :: c2 :: rest =>
    if c1 = '/' ∧ c2 = '*' then
      match findClose rest with
      | some rest2 => ' ' :: stripBlockFuel fuel rest2
      | none => c1 :: c2 :: rest
    else c1 :: stripBlockFuel fuel (c2 :: rest)

/-- Fuelled scan replacing each `-- ...` (to end of line) with a single space. -/
def stripLineFuel : Nat → List Char → List Char
  | 0, l => l
  | _ + 1, [] => []
  | _ + 1, [c] => [c]
  | fuel + 1, c1 :: c2 :: rest =>
    if c1 = '-' ∧ c2 = '-' then ' ' :: stripLineFuel fuel (dropLineComment rest)
    else c1 :: stripLineFuel fuel (c2 :: rest)

/-- `stripComments` from `queryTools.ts`: block comments first, then line
comments, each replaced by a single space. -/
def stripComments (l : List Char) : List Char :=
  stripLineFuel (stripBlockFuel l.length l).length (stripBlockFuel l.length l)

/-! ## Whole-word search (the `\b(...)\b` regexp test) -/

/-- Boundary test for the character adjacent to a candidate match:
at the ends of the string (`none`) or at a non-word character,
the regexp `\b` boundary holds. -/
def boundOk : Option Char → Bool
  | none => true
  | some c => !isWordChar c

/-- Scans `text` (with `prev` the character just before it, if any) for an
occurrence of `w` delimited by `\b` boundaries on both sides. -/
def containsWordFrom (w : List Char) : Option Char → List Char → Bool
  | _, [] => false
  | prev, c :: rest =>
    (boundOk prev && (w.isPrefixOf (c :: rest) && boundOk (List.drop w.length (c :: rest)).head?))
      || containsWordFrom w (some c) rest

/-- `new RegExp("\\b" + w + "\\b").test(text)` for a word `w` made of word
characters: some occurrence of `w` in `text` has non-word (or absent)
neighbours on both sides. -/
def containsWord (text w : List Char) : Bool := containsWordFrom w none text

/-- The forbidden keyword list of `containsForbiddenTokens` in `queryTools.ts`. -/
def forbiddenKeywords : List (List Char) :=
  ["INSERT".data, "UPDATE".data, "DELETE".data, "DROP".data, "ALTER".data,
   "CREATE".data, "TRUNCATE".data, "MERGE".data, "EXEC".data, "EXECUTE".data,
   "GRANT".data, "REVOKE".data, "DENY".data, "WAITFOR".data, "DBCC".data,
   "OPENROWSET".data, "OPENDATASOURCE".data, "BULK".data, "SHUTDOWN".data]

/-- `containsForbiddenTokens(sqlUpper)` from `queryTools.ts`. -/
def containsForbiddenTokens (sqlUpper : List Char) : Bool :=
  forbiddenKeywords.any (fun w => containsWord sqlUpper w)

/-! ## The query guard inside the `db.select` handler (`queryTools.ts`) -/

/-- Result of the lexical guard: a rejection with the handler's reason text,
or acceptance with the normalized (comment-stripped, trimmed,
terminator-stripped) statement text. -/
inductive GuardResult where
  | rejected (reason : String)
  | accepted (q : List Char)
deriving DecidableEq

/-- Reason text returned when a semicolon occurs other than as a single
trailing terminator. -/
def multiStmtReason : String :=
  "Only a single SELECT statement is allowed (no multiple statements)."

/-- Reason text returned when the statement does not start with SELECT/WITH. -/
def onlySelectReason : String :=
  "Only SELECT queries are allowed (CTE starting with WITH is allowed)."

/-- Reason text returned when a forbidden keyword (or INTO) is found. -/
def forbiddenReason : String :=
  "Query rejected: forbidden keyword detected (write/exec/dangerous feature)."

/-- Lines 40–58 of `queryTools.ts`: comment stripping, trimming, and the
single-statement check. `none` means the handler returns the
multiple-statements rejection; `some q` is the text the remaining checks
run on (a single trailing semicolon stripped, then trimmed again). -/
def guardNormalize (sql : String) : Option (List Char) :=
  let q := trimChars (stripComments sql.data)
  if q.contains ';' then
    if q.getLast? == some ';' && !(q.dropLast.contains ';') then
      some (trimChars q.dropLast)
    else none
  else some q

/-- Lines 60–85 of `queryTools.ts`: the shape check (`startsWith`) and the
forbidden-token / INTO checks, both on the upper-cased text. -/
def guardShapeAndKeywords (q : List Char) : GuardResult :=
  if !("SELECT".data.isPrefixOf (upperChars q) || "WITH".data.isPrefixOf (upperChars q)) then
    GuardResult.rejected onlySelectReason
  else if containsForbiddenTokens (upperChars q) || containsWord (upperChars q) "INTO".data then
    GuardResult.rejected forbiddenReason
  else GuardResult.accepted q

/-- The complete lexical guard of the `db.select` handler. -/
def guardClassify (sql : String) : GuardResult :=
  match guardNormalize sql with
  | none => GuardResult.rejected multiStmtReason
  | some q => guardShapeAndKeywords q

/-! ## The `db.select` tool (`registerQueryTools` handler) -/

/-- A result row, as an opaque record of field/value pairs. -/
abbrev Row := List (String × String)

/-- Outcome of one `SQLClient.query` call: a thrown error, or a result whose
`recordset` may be absent (`undefined` in the driver). -/
inductive ExecOutcome where
  | throws (message : String)
  | result (recordset : Option (List Row))

/-- Observable outcome of one `db.select` invocation: rejected by the zod
input schema before the handler runs, an `isError` payload with its text,
or the success payload `{ rowCount, cappedAt, data }`. -/
inductive SelectResult where
  | invalidInput
  | error (message : String)
  | ok (rowCount : Nat) (cappedAt : Int) (data : List Row)
deriving DecidableEq

/-- The zod `inputSchema` of `db.select`:
`sql: z.string().min(1)`, `maxRows: z.number().int().min(1).max(200).optional()`. -/
def validInput (sql : String) (maxRows : Option Int) : Bool :=
  decide (1 ≤ sql.length) &&
    (match maxRows with
     | none => true
     | some k => decide (1 ≤ k) && decide (k ≤ 200))

/-- The `cappedBatch` template string built by the handler around the
accepted text, with the row cap interpolated. -/
def cappedBatch (limit : Int) (q : List Char) : String :=
  "\n        SET NOCOUNT ON;\n\n        BEGIN TRY\n            SET ROWCOUNT "
    ++ toString limit ++ ";\n            " ++ String.mk q
    ++ "\n            SET ROWCOUNT 0;\n        END TRY\n        BEGIN CATCH\n            SET ROWCOUNT 0;\n            THROW;\n        END CATCH\n        "

/-- The `db.select` tool end to end: zod validation, the handler's
`limit = Math.min(maxRows ?? 100, 200)`, the guard, then execution of the
capped batch with `rowCount = recordset?.length ?? 0` and
`data = recordset ?? []` on success. -/
def dbSelect (exec : String → ExecOutcome) (sql : String) (maxRows : Option Int) : SelectResult :=
  if validInput sql maxRows then
    let limit : Int := min (maxRows.getD 100) 200
    match guardClassify sql with
    | GuardResult.rejected r => SelectResult.error r
    | GuardResult.accepted q =>
      match exec (cappedBatch limit q) with
      | ExecOutcome.throws m => SelectResult.error ("SQL Error: " ++ m)
      | ExecOutcome.result rs =>
        SelectResult.ok (rs.getD []).length limit (rs.getD [])
  else SelectResult.invalidInput

/-- An executor whose result carries no recordset (`result.recordset`
undefined), for concrete evaluations. -/
def execNone : String → ExecOutcome := fun _ => ExecOutcome.result none

/-! ## Tool registration (`server.ts`, `schemaTools.ts`, `testTools.ts`) -/

/-- An MCP server, observed through its registered tool names. -/
structure McpServer where
  name : String
  version : String
  tools : List String
deriving DecidableEq

/-- `server.registerTool(name, metadata, handler)`, observed on the registry. -/
def registerTool (server : McpServer) (toolName : String) : McpServer :=
  { server with tools := server.tools ++ [toolName] }

/-- `registerSchemaTools` from `schemaTools.ts`: registers `db.describeTable`
and `db.getDatabaseContext` (the `db.listTables` and `db.listRelationships`
registrations are commented out in the source). -/
def registerSchemaTools (server : McpServer) : McpServer :=
  registerTool (registerTool server "db.describeTable") "db.getDatabaseContext"

/-- `registerTestTools` from `testTools.ts`: registers `sys.echo`. -/
def registerTestTools (server : McpServer) : McpServer :=
  registerTool server "sys.echo"

/-- `registerQueryTools` from `queryTools.ts`: registers `db.select`. -/
def registerQueryTools (server : McpServer) : McpServer :=
  registerTool server "db.select"

/-- `createAdventureWorksServer` from `server.ts`: creates the server and
calls `registerSchemaTools` and `registerTestTools` — and nothing else
(`registerQueryTools` is never imported or invoked there). -/
def createAdventureWorksServer : McpServer :=
  registerTestTools (registerSchemaTools
    { name := "adventureworks-manager", version := "1.0.0", tools := [] })

/-! ## Schema service (`features/schema.ts`) -/

/-- `TableInfo` from `schema.ts`. -/
structure TableInfo where
  tableName : String
  schema : String
deriving DecidableEq

/-- `ColumnInfo` from `schema.ts` (`isNullable` is the `"YES"`/`"NO"` string). -/
structure ColumnInfo where
  columnName : String
  dataType : String
  isNullable : String
  maxLength : Option Int
  precision : Option Int
  scale : Option Int
deriving DecidableEq

/-- `PrimaryKeyInfo` from `schema.ts`. -/
structure PrimaryKeyInfo where
  tableName : String
  columnName : String
  keyOrdinal : Int
deriving DecidableEq

/-- One `SQLClient.query` call issued by the schema service, identified by
which metadata query it is and its named parameters. -/
inductive SchemaQuery where
  | tablesQuery (schema : String)
  | columnsQuery (schema tableName : String)
  | pkQuery (schema : String)
deriving DecidableEq

/-- The backing database as seen through the SQL executor: the configured
schema name (env `DB_SCHEMA`, default `"SalesLT"`) and the deterministic
answers to the three metadata queries. -/
structure DB where
  schema : String
  tables : List TableInfo
  columns : String → List ColumnInfo
  primaryKeys : List PrimaryKeyInfo

/-- The two static caches of `SchemaService`:
`tablesCache : TableInfo[] | null` and `columnsCache : Map<string, ColumnInfo[]>`. -/
structure SchemaState where
  tablesCache : Option (List TableInfo)
  columnsCache : List (String × List ColumnInfo)
deriving DecidableEq

/-- The caches at process start: `null` and an empty map. -/
def initState : SchemaState := ⟨none, []⟩

/-- `Map.prototype.get` on the columns cache. -/
def lookupAssoc (m : List (String × List ColumnInfo)) (k : String) : Option (List ColumnInfo) :=
  match m with
  | [] => none
  | (k2, v) :: rest => if k2 = k then some v else lookupAssoc rest k

/-- `Map.prototype.set` on the columns cache. -/
def setAssoc (m : List (String × List ColumnInfo)) (k : String) (v : List ColumnInfo) :
    List (String × List ColumnInfo) :=
  match m with
  | [] => [(k, v)]
  | (k2, v2) :: rest => if k2 = k then (k2, v) :: rest else (k2, v2) :: setAssoc rest k v

namespace SchemaService

/-- `SchemaService.getTables`: cache hit returns the stored list; a miss
issues the tables query, stores and returns its result. The third component
records the `SQLClient.query` calls issued. -/
def getTables (db : DB) (st : SchemaState) :
    List TableInfo × SchemaState × List SchemaQuery :=
  match st.tablesCache with
  | some ts => (ts, st, [])
  | none => (db.tables, { st with tablesCache := some db.tables },
      [SchemaQuery.tablesQuery db.schema])

/-- `SchemaService.getTableSchema`: columns-cache hit returns the stored
list; otherwise the table list is consulted and a missing table makes the
method throw (`Except.error`) without issuing the column query. -/
def getTableSchema (db : DB) (st : SchemaState) (tableName : String) :
    Except String (List ColumnInfo) × SchemaState × List SchemaQuery :=
  match lookupAssoc st.columnsCache (db.schema ++ "." ++ tableName) with
  | some cached => (Except.ok cached, st, [])
  | none =>
    let r := getTables db st
    if r.1.any (fun t => t.tableName == tableName && t.schema == db.schema) then
      (Except.ok (db.columns tableName),
       { r.2.1 with
          columnsCache := setAssoc r.2.1.columnsCache (db.schema ++ "." ++ tableName)
            (db.columns tableName) },
       r.2.2 ++ [SchemaQuery.columnsQuery db.schema tableName])
    else
      (Except.error ("Table not found or not allowed: " ++ db.schema ++ "." ++ tableName),
       r.2.1, r.2.2)

/-- `SchemaService.getPrimaryKeys`: uncached; always issues its query. -/
def getPrimaryKeys (db : DB) : List PrimaryKeyInfo × List SchemaQuery :=
  (db.primaryKeys, [SchemaQuery.pkQuery db.schema])

/-- `SchemaService.clearCache`: resets both caches unconditionally. -/
def clearCache (_st : SchemaState) : SchemaState := initState

end SchemaService

/-- Cache consistency with the backing store: the tables cache, if filled,
holds the backing table list, and every columns-cache key is
`schema + "." + t` for some listed table `t` of the configured schema.
This holds at `initState` and is maintained by every operation. -/
def stInv (db : DB) (st : SchemaState) : Bool :=
  (match st.tablesCache with
   | none => true
   | some ts => ts == db.tables) &&
  st.columnsCache.all (fun kv =>
    db.tables.any (fun t => t.schema == db.schema && kv.1 == db.schema ++ "." ++ t.tableName))

/-! ## The `db.describeTable` tool (`registerSchemaTools` handler) -/

/-- The JSON payload `{ tableName, columns, primaryKeys }` of a successful
`db.describeTable` call. -/
structure DescribeOutput where
  tableName : String
  columns : List ColumnInfo
  primaryKeys : List PrimaryKeyInfo
deriving DecidableEq

/-- Insertion step for sorting primary-key rows by `keyOrdinal`. -/
def insertPK (x : PrimaryKeyInfo) : List PrimaryKeyInfo → List PrimaryKeyInfo
  | [] => [x]
  | y :: rest =>
    if x.keyOrdinal ≤ y.keyOrdinal then x :: y :: rest else y :: insertPK x rest

/-- `.sort((a, b) => a.keyOrdinal - b.keyOrdinal)`: a stable sort of the
primary-key rows by ascending `keyOrdinal`. -/
def sortPK : List PrimaryKeyInfo → List PrimaryKeyInfo
  | [] => []
  | x :: rest => insertPK x (sortPK rest)

/-- The `db.describeTable` handler: `Promise.all` starts `getTableSchema`
and `getPrimaryKeys` (so the primary-key query is issued either way); a
thrown `getTableSchema` error rejects the whole handler (`Except.error`),
otherwise the payload filters the global primary-key list to the table and
sorts it by `keyOrdinal`. -/
def dbDescribeTable (db : DB) (st : SchemaState) (tableName : String) :
    Except String DescribeOutput × SchemaState × List SchemaQuery :=
  let r := SchemaService.getTableSchema db st tableName
  let pks := SchemaService.getPrimaryKeys db
  match r.1 with
  | Except.error e => (Except.error e, r.2.1, r.2.2 ++ pks.2)
  | Except.ok cols =>
    (Except.ok
      { tableName := tableName, columns := cols,
        primaryKeys := sortPK ((pks.1).filter (fun pk => pk.tableName == tableName)) },
     r.2.1, r.2.2 ++ pks.2)

/-! ## Concrete instances used by witnesses and counterexamples -/

/-- A backing store with the single table `SalesLT.Product` and no keys. -/
def db0 : DB :=
  { schema := "SalesLT",
    tables := [{ tableName := "Product", schema := "SalesLT" }],
    columns := fun _ => [],
    primaryKeys := [] }

/-- A backing store whose primary-key rows arrive out of `keyOrdinal` order. -/
def db1 : DB :=
  { schema := "SalesLT",
    tables := [{ tableName := "Product", schema := "SalesLT" }],
    columns := fun _ => [],
    primaryKeys :=
      [{ tableName := "Product", columnName := "B", keyOrdinal := 2 },
       { tableName := "Other", columnName := "C", keyOrdinal := 1 },
       { tableName := "Product", columnName := "A", keyOrdinal := 1 }] }

/-- Follows the spec's words, not the source: the "first keyword" of the
guard-preprocessed input (after comment stripping, trimming, and
trailing-terminator stripping) — the leading maximal run of word
characters, upper-cased. Used to state what the spec's statement-shape
sentence literally quantifies over. -/
def specFirstKeyword (s : String) : String :=
  match guardNormalize s with
  | none => ""
  | some q => String.mk (upperChars (q.takeWhile isWordChar))

/-- Plain (boundary-free) substring occurrence, used to state that a
forbidden word occurring only inside a longer identifier is an occurrence
the guard does not react to. -/
def containsSeq : List Char → List Char → Bool
  | [], w => w.isEmpty
  | c :: rest, w => w.isPrefixOf (c :: rest) || containsSeq rest w

/-- Decidable equality for `Except`, so concrete handler outcomes can be
checked by `decide`. -/
instance instDecEqExcept {ε α : Type} [DecidableEq ε] [DecidableEq α] :
    DecidableEq (Except ε α)
  | Except.error a, Except.error b =>
    if h : a = b then isTrue (by rw [h]) else isFalse (fun hh => by cases hh; exact h rfl)
  | Except.error _, Except.ok _ => isFalse (fun hh => by cases hh)
  | Except.ok _, Except.error _ => isFalse (fun hh => by cases hh)
  | Except.ok a, Except.ok b =>
    if h : a = b then isTrue (by rw [h]) else isFalse (fun hh => by cases hh; exact h rfl)

/-! ## General helper lemmas -/

theorem guardClassify_eq_of_normalize (s : String) (q : List Char)
    (h : guardNormalize s = some q) : guardClassify s = guardShapeAndKeywords q := by
  unfold guardClassify
  rw [h]

theorem guardClassify_eq_of_normalize_none (s : String)
    (h : guardNormalize s = none) :
    guardClassify s = GuardResult.rejected multiStmtReason := by
  unfold guardClassify
  rw [h]

theorem dbSelect_of_valid (exec : String → ExecOutcome) (sql : String) (mr : Option Int)
    (h : validInput sql mr = true) :
    dbSelect exec sql mr =
      (match guardClassify sql with
       | GuardResult.rejected r => SelectResult.error r
       | GuardResult.accepted q =>
         match exec (cappedBatch (min (mr.getD 100) 200) q) with
         | ExecOutcome.throws m => SelectResult.error ("SQL Error: " ++ m)
         | ExecOutcome.result rs =>
           SelectResult.ok (rs.getD []).length (min (mr.getD 100) 200) (rs.getD [])) := by
  unfold dbSelect
  rw [h]
  rfl

theorem dbSelect_rejected (exec : String → ExecOutcome) (sql : String) (mr : Option Int)
    (reason : String) (hv : validInput sql mr = true)
    (hg : guardClassify sql = GuardResult.rejected reason) :
    dbSelect exec sql mr = SelectResult.error reason := by
  rw [dbSelect_of_valid exec sql mr hv, hg]

theorem dbSelect_accepted (exec : String → ExecOutcome) (sql : String) (mr : Option Int)
    (q : List Char) (hv : validInput sql mr = true)
    (hg : guardClassify sql = GuardResult.accepted q) :
    dbSelect exec sql mr =
      (match exec (cappedBatch (min (mr.getD 100) 200) q) with
       | ExecOutcome.throws m => SelectResult.error ("SQL Error: " ++ m)
       | ExecOutcome.result rs =>
         SelectResult.ok (rs.getD []).length (min (mr.getD 100) 200) (rs.getD [])) := by
  rw [dbSelect_of_valid exec sql mr hv, hg]

theorem dbSelect_ok_inv (exec : String → ExecOutcome) (sql : String) (mr : Option Int)
    (r : Nat) (c : Int) (d : List Row) (h : dbSelect exec sql mr = SelectResult.ok r c d) :
    c = min (mr.getD 100) 200 ∧ r = d.length ∧ validInput sql mr = true := by
  by_cases hv : validInput sql mr = true
  · cases hg : guardClassify sql with
    | rejected reason =>
      rw [dbSelect_rejected exec sql mr reason hv hg] at h
      cases h
    | accepted q =>
      rw [dbSelect_accepted exec sql mr q hv hg] at h
      cases he : exec (cappedBatch (min (mr.getD 100) 200) q) with
      | throws m => rw [he] at h; cases h
      | result rs => rw [he] at h; cases h; exact ⟨rfl, rfl, hv⟩
  · unfold dbSelect at h
    rw [eq_false_of_ne_true hv] at h
    cases h

/-! ## C1 — tool registration -/

/-- C1: the claim says every server built by `createAdventureWorksServer`
has `db.describeTable`, `db.getDatabaseContext` and `db.select` registered.
The factory registers the first two (plus `sys.echo`) but never calls
`registerQueryTools`, so `db.select` is absent from the registry: a
tool-call named `db.select` cannot reach the guard and bounded executor. -/
theorem c1_theorem :
    "db.select" ∉ createAdventureWorksServer.tools ∧
    "db.describeTable" ∈ createAdventureWorksServer.tools ∧
    "db.getDatabaseContext" ∈ createAdventureWorksServer.tools ∧
    "sys.echo" ∈ createAdventureWorksServer.tools := by decide

/-! ## C2 — the row cap -/

/-- C2 counterexample: the claim says `maxRows = 5000` yields
`cappedAt = 200` and `maxRows = 0` yields `cappedAt = 100`; in fact the zod
input schema (`min(1).max(200)`) rejects both invocations before the
handler runs, so neither produces any `cappedAt`. Omitting `maxRows` does
default to 100. -/
theorem c2_counterexample :
    dbSelect execNone "SELECT 1" (some 5000) = SelectResult.invalidInput ∧
    dbSelect execNone "SELECT 1" (some 0) = SelectResult.invalidInput ∧
    dbSelect execNone "SELECT 1" none = SelectResult.ok 0 100 [] := by decide

/-- C2 amended: out-of-range `maxRows` never reaches the handler (input
validation rejects the invocation), and every successful `db.select`
response has `cappedAt = maxRows` when supplied (else 100), always inside
`[1, 200]`. -/
theorem c2_amended :
    (∀ (exec : String → ExecOutcome) (sql : String) (k : Int), (k < 1 ∨ 200 < k) →
        dbSelect exec sql (some k) = SelectResult.invalidInput) ∧
    (∀ (exec : String → ExecOutcome) (sql : String) (mr : Option Int) (r : Nat) (c : Int)
        (d : List Row), dbSelect exec sql mr = SelectResult.ok r c d →
        c = mr.getD 100 ∧ 1 ≤ c ∧ c ≤ 200) := by
  constructor
  · intro exec sql k hk
    have hv : validInput sql (some k) = false := by
      unfold validInput
      rcases hk with h | h
      · have : decide (1 ≤ k) = false := by simp; omega
        simp [this]
      · have : decide (k ≤ 200) = false := by simp; omega
        simp [this]
    unfold dbSelect
    rw [hv]
    rfl
  · intro exec sql mr r c d h
    obtain ⟨hc, -, hv⟩ := dbSelect_ok_inv exec sql mr r c d h
    unfold validInput at hv
    cases mr with
    | none =>
      subst hc
      refine ⟨by norm_num, by norm_num, by norm_num⟩
    | some k =>
      simp only [Bool.and_eq_true, decide_eq_true_eq] at hv
      have hk1 : 1 ≤ k := hv.2.1
      have hk2 : k ≤ 200 := hv.2.2
      have hmin : min (k : Int) 200 = k := min_eq_left hk2
      subst hc
      refine ⟨by simp [Option.getD_some, hmin], ?_, ?_⟩
      · simpa [Option.getD_some, hmin] using hk1
      · simpa [Option.getD_some, hmin] using hk2

/-- C2 witness: the amended theorem applied at `maxRows = 5000` (rejected)
and at the successful call `dbSelect execNone "SELECT 1" none`. -/
theorem c2_witness :
    dbSelect execNone "SELECT 1" (some 5000) = SelectResult.invalidInput ∧
    ((100 : Int) = (none : Option Int).getD 100 ∧ (1 : Int) ≤ 100 ∧ (100 : Int) ≤ 200) :=
  ⟨c2_amended.1 execNone "SELECT 1" 5000 (Or.inr (by norm_num)),
   c2_amended.2 execNone "SELECT 1" none 0 100 [] (by decide)⟩

/-! ## C4 — the statement-shape check -/

/-- C4 counterexample: the claim says any input whose first keyword is not
SELECT or WITH is rejected with the only-SELECT reason; but the code's
check is `startsWith`, a character-prefix test, so `"SELECTX 1"` — whose
first keyword is `SELECTX` — is accepted and executed. -/
theorem c4_counterexample :
    specFirstKeyword "SELECTX 1" = "SELECTX" ∧
    ("SELECTX" ≠ "SELECT" ∧ "SELECTX" ≠ "WITH") ∧
    guardClassify "SELECTX 1" = GuardResult.accepted "SELECTX 1".data ∧
    dbSelect execNone "SELECTX 1" none = SelectResult.ok 0 100 [] := by decide

/-- C4 amended: for every input that passes the statement-count check and
whose preprocessed upper-cased text does not begin with the prefix
`SELECT` or `WITH`, the guard rejects with the only-SELECT/WITH reason
(the check is a prefix test, not a first-keyword test). -/
theorem c4_amended : ∀ (s : String) (q : List Char),
    guardNormalize s = some q →
    ("SELECT".data.isPrefixOf (upperChars q) || "WITH".data.isPrefixOf (upperChars q)) = false →
    guardClassify s = GuardResult.rejected onlySelectReason := by
  intro s q hn hshape
  rw [guardClassify_eq_of_normalize s q hn]
  unfold guardShapeAndKeywords
  rw [hshape]
  rfl

/-- C4 witness: the amended theorem at the concrete input `"DROP TABLE x"`. -/
theorem c4_witness :
    guardNormalize "DROP TABLE x" = some "DROP TABLE x".data ∧
    guardClassify "DROP TABLE x" = GuardResult.rejected onlySelectReason :=
  ⟨by decide, c4_amended "DROP TABLE x" "DROP TABLE x".data (by decide) (by decide)⟩

/-! ## C10 — rowCount and data agree -/

/-- C10: in every successful `db.select` response `rowCount` equals the
length of `data`; and when the executor yields no recordset the accepted
query produces `rowCount = 0` with `data = []` (the `?? 0` / `?? []`
fallbacks), never a missing field. -/
theorem c10_theorem :
    (∀ (exec : String → ExecOutcome) (sql : String) (mr : Option Int) (r : Nat) (c : Int)
        (d : List Row), dbSelect exec sql mr = SelectResult.ok r c d → r = d.length) ∧
    (∀ (sql : String) (mr : Option Int) (q : List Char),
        validInput sql mr = true → guardClassify sql = GuardResult.accepted q →
        dbSelect execNone sql mr = SelectResult.ok 0 (min (mr.getD 100) 200) []) := by
  constructor
  · intro exec sql mr r c d h
    exact (dbSelect_ok_inv exec sql mr r c d h).2.1
  · intro sql mr q hv hg
    rw [dbSelect_of_valid execNone sql mr hv, hg]
    rfl

/-- C10 witness: both conjuncts at the accepted query `"SELECT 1"` run
against the recordset-free executor. -/
theorem c10_witness :
    (0 = ([] : List Row).length) ∧
    dbSelect execNone "SELECT 1" none = SelectResult.ok 0 (min ((none : Option Int).getD 100) 200) [] :=
  ⟨c10_theorem.1 execNone "SELECT 1" none 0 100 [] (by decide),
   c10_theorem.2 "SELECT 1" none "SELECT 1".data (by decide) (by decide)⟩

/-! ## C6 — the statement-count check -/

theorem onlyTrailing_iff (l : List Char) :
    (l.getLast? == some ';' && !(l.dropLast.contains ';')) = true ↔
    (l.count ';' = 1 ∧ l.getLast? = some ';') := by
  constructor
  · intro h
    simp only [Bool.and_eq_true, beq_iff_eq, Bool.not_eq_true'] at h
    obtain ⟨h1, h2⟩ := h
    have hne : l ≠ [] := by intro he; rw [he] at h1; cases h1
    have hlast : l.getLast hne = ';' := by
      have hh := List.getLast?_eq_getLast l hne
      rw [hh] at h1
      injection h1
    have hnotmem : ';' ∉ l.dropLast := by
      intro hm
      have hc2 : l.dropLast.contains ';' = true := List.elem_iff.mpr hm
      rw [hc2] at h2
      cases h2
    refine ⟨?_, h1⟩
    have hdec := List.dropLast_append_getLast hne
    calc l.count ';' = (l.dropLast ++ [l.getLast hne]).count ';' := by rw [hdec]
      _ = l.dropLast.count ';' + [l.getLast hne].count ';' := List.count_append ..
      _ = 0 + 1 := by rw [List.count_eq_zero.mpr hnotmem, hlast]; simp
      _ = 1 := by omega
  · intro h
    obtain ⟨hcount, h1⟩ := h
    have hne : l ≠ [] := by intro he; rw [he] at h1; cases h1
    have hlast : l.getLast hne = ';' := by
      have hh := List.getLast?_eq_getLast l hne
      rw [hh] at h1
      injection h1
    have hdec := List.dropLast_append_getLast hne
    have hcnt2 : l.dropLast.count ';' = 0 := by
      have : (l.dropLast ++ [l.getLast hne]).count ';' = 1 := by rw [hdec]; exact hcount
      rw [List.count_append, hlast] at this
      simpa using this
    have hnm : ';' ∉ l.dropLast := List.count_eq_zero.mp hcnt2
    have hcont : l.dropLast.contains ';' = false := by
      cases hc : l.dropLast.contains ';' with
      | false => rfl
      | true => exact absurd (List.elem_iff.mp hc) hnm
    rw [h1, hcont]
    rfl

/-- C6: the statement-count check runs on the comment-stripped, trimmed
text; any semicolon other than exactly one trailing terminator makes
`db.select` answer the multiple-statements rejection, while a single
trailing terminator is stripped before the other checks — so
`"SELECT 1; -- DROP TABLE x"` is accepted (and executes). -/
theorem c6_theorem :
    (∀ (exec : String → ExecOutcome) (sql : String) (mr : Option Int),
        validInput sql mr = true →
        ';' ∈ trimChars (stripComments sql.data) →
        ¬((trimChars (stripComments sql.data)).count ';' = 1 ∧
          (trimChars (stripComments sql.data)).getLast? = some ';') →
        dbSelect exec sql mr = SelectResult.error multiStmtReason) ∧
    dbSelect execNone "SELECT 1; -- DROP TABLE x" none = SelectResult.ok 0 100 [] := by
  constructor
  · intro exec sql mr hv hmem hbad
    have hc : (trimChars (stripComments sql.data)).contains ';' = true :=
      List.elem_iff.mpr hmem
    have hcond : ((trimChars (stripComments sql.data)).getLast? == some ';' &&
        !((trimChars (stripComments sql.data)).dropLast.contains ';')) = false := by
      cases hC : ((trimChars (stripComments sql.data)).getLast? == some ';' &&
          !((trimChars (stripComments sql.data)).dropLast.contains ';')) with
      | false => rfl
      | true => exact absurd ((onlyTrailing_iff _).mp hC) hbad
    have hn : guardNormalize sql = none := by
      simp only [guardNormalize]
      rw [hc, hcond]
      rfl
    rw [dbSelect_of_valid exec sql mr hv, guardClassify_eq_of_normalize_none sql hn]
  · decide

/-- C6 witness: the universal part at the two-statement input
`"SELECT 1; SELECT 2"`. -/
theorem c6_witness :
    dbSelect execNone "SELECT 1; SELECT 2" none = SelectResult.error multiStmtReason :=
  c6_theorem.1 execNone "SELECT 1; SELECT 2" none (by decide) (by decide) (by decide)

/-! ## Assoc-map and cache-invariant helpers -/

theorem lookupAssoc_mem (m : List (String × List ColumnInfo)) (k : String) (v : List ColumnInfo)
    (h : lookupAssoc m k = some v) : ∃ kv ∈ m, kv.1 = k ∧ kv.2 = v := by
  induction m with
  | nil => cases h
  | cons kv rest ih =>
    obtain ⟨k2, v2⟩ := kv
    unfold lookupAssoc at h
    by_cases he : k2 = k
    · rw [if_pos he] at h
      injection h with h2
      exact ⟨(k2, v2), List.mem_cons_self _ _, he, h2⟩
    · rw [if_neg he] at h
      obtain ⟨kv2, hm, hk, hv2⟩ := ih h
      exact ⟨kv2, List.mem_cons_of_mem _ hm, hk, hv2⟩

theorem lookupAssoc_setAssoc_ne (m : List (String × List ColumnInfo)) (k k2 : String)
    (v : List ColumnInfo) (h : ¬ k = k2) :
    lookupAssoc (setAssoc m k v) k2 = lookupAssoc m k2 := by
  induction m with
  | nil => simp [setAssoc, lookupAssoc, h]
  | cons kv rest ih =>
    obtain ⟨ka, va⟩ := kv
    unfold setAssoc
    by_cases he : ka = k
    · rw [if_pos he]
      unfold lookupAssoc
      have hne : ¬ ka = k2 := by rw [he]; exact h
      rw [if_neg hne, if_neg hne]
    · rw [if_neg he]
      unfold lookupAssoc
      by_cases he2 : ka = k2
      · rw [if_pos he2, if_pos he2]
      · rw [if_neg he2, if_neg he2]; exact ih

theorem getTables_result_of_inv (db : DB) (st : SchemaState) (hinv : stInv db st = true) :
    (SchemaService.getTables db st).1 = db.tables := by
  unfold SchemaService.getTables
  cases hst : st.tablesCache with
  | none => rfl
  | some ts =>
    unfold stInv at hinv
    rw [hst] at hinv
    simp only [Bool.and_eq_true, beq_iff_eq] at hinv
    simpa using hinv.1

theorem getTables_tablesCache_stable (db : DB) (st : SchemaState) (ts : List TableInfo)
    (h : st.tablesCache = some ts) :
    (SchemaService.getTables db st).2.1.tablesCache = some ts := by
  unfold SchemaService.getTables
  rw [h]
  exact h

theorem getTables_columnsCache_eq (db : DB) (st : SchemaState) :
    (SchemaService.getTables db st).2.1.columnsCache = st.columnsCache := by
  unfold SchemaService.getTables
  cases hst : st.tablesCache <;> rfl

theorem stringAppendLeftCancel (a b c : String) (h : a ++ b = a ++ c) : b = c := by
  have hd : a.data ++ b.data = a.data ++ c.data := congrArg String.data h
  cases b with
  | mk bd =>
    cases c with
    | mk cd =>
      have : bd = cd := List.append_cancel_left hd
      rw [this]

theorem getTableSchema_notFound (db : DB) (st : SchemaState) (tn : String)
    (hinv : stInv db st = true)
    (hnot : ∀ t ∈ db.tables, ¬(t.tableName = tn ∧ t.schema = db.schema)) :
    SchemaService.getTableSchema db st tn =
      (Except.error ("Table not found or not allowed: " ++ db.schema ++ "." ++ tn),
       (SchemaService.getTables db st).2.1, (SchemaService.getTables db st).2.2) := by
  have hlk : lookupAssoc st.columnsCache (db.schema ++ "." ++ tn) = none := by
    cases hl : lookupAssoc st.columnsCache (db.schema ++ "." ++ tn) with
    | none => rfl
    | some v =>
      exfalso
      obtain ⟨kv, hm, hk, -⟩ := lookupAssoc_mem _ _ _ hl
      unfold stInv at hinv
      simp only [Bool.and_eq_true, List.all_eq_true] at hinv
      obtain ⟨-, hall⟩ := hinv
      have hh := hall kv hm
      simp only [List.any_eq_true, Bool.and_eq_true, beq_iff_eq] at hh
      obtain ⟨t, htm, hts, hkey⟩ := hh
      have heq : db.schema ++ "." ++ t.tableName = db.schema ++ "." ++ tn := by
        rw [← hkey, hk]
      have htn : t.tableName = tn := stringAppendLeftCancel (db.schema ++ ".") _ _ heq
      exact hnot t htm ⟨htn, hts⟩
  have hany : (SchemaService.getTables db st).1.any
      (fun t => t.tableName == tn && t.schema == db.schema) = false := by
    rw [getTables_result_of_inv db st hinv]
    cases hA : db.tables.any (fun t => t.tableName == tn && t.schema == db.schema) with
    | false => rfl
    | true =>
      exfalso
      simp only [List.any_eq_true, Bool.and_eq_true, beq_iff_eq] at hA
      obtain ⟨t, htm, h1, h2⟩ := hA
      exact hnot t htm ⟨h1, h2⟩
  unfold SchemaService.getTableSchema
  rw [hlk]
  simp only [hany, Bool.false_eq_true, if_false]

/-! ## C7 — NotFound without a column query -/

/-- C7: for a table absent from the configured schema's table list
(the caches being consistent with the backing store), `getTableSchema`
fails with the NotFound error naming schema and table, and no column
query is ever issued to the SQL executor. -/
theorem c7_theorem : ∀ (db : DB) (st : SchemaState) (tn : String),
    stInv db st = true →
    (∀ t ∈ db.tables, ¬(t.tableName = tn ∧ t.schema = db.schema)) →
    (SchemaService.getTableSchema db st tn).1 =
      Except.error ("Table not found or not allowed: " ++ db.schema ++ "." ++ tn) ∧
    ∀ sc t2, SchemaQuery.columnsQuery sc t2 ∉ (SchemaService.getTableSchema db st tn).2.2 := by
  intro db st tn hinv hnot
  rw [getTableSchema_notFound db st tn hinv hnot]
  refine ⟨rfl, ?_⟩
  intro sc t2
  unfold SchemaService.getTables
  cases hst : st.tablesCache <;> simp

/-- C7 witness: the theorem at `db0` (whose only table is
`SalesLT.Product`), the empty caches, and the absent table `"Person"`. -/
theorem c7_witness :
    (SchemaService.getTableSchema db0 initState "Person").1 =
      Except.error ("Table not found or not allowed: " ++ db0.schema ++ "." ++ "Person") ∧
    SchemaQuery.columnsQuery db0.schema "Person" ∉
      (SchemaService.getTableSchema db0 initState "Person").2.2 :=
  ⟨(c7_theorem db0 initState "Person" (by decide) (by decide)).1,
   (c7_theorem db0 initState "Person" (by decide) (by decide)).2 db0.schema "Person"⟩

/-! ## C8 — cache stability -/

/-- C8: a populated tables cache (resp. columns cache entry) makes
`getTables` (resp. `getTableSchema`) return exactly the stored value,
leave the state untouched and issue no query; neither operation ever
evicts an entry; `clearCache` resets both caches and is the only
operation that removes anything. -/
theorem c8_theorem :
    (∀ (db : DB) (st : SchemaState) (ts : List TableInfo),
        st.tablesCache = some ts → SchemaService.getTables db st = (ts, st, [])) ∧
    (∀ (db : DB) (st : SchemaState) (tn : String) (cols : List ColumnInfo),
        lookupAssoc st.columnsCache (db.schema ++ "." ++ tn) = some cols →
        SchemaService.getTableSchema db st tn = (Except.ok cols, st, [])) ∧
    (∀ (db : DB) (st : SchemaState),
        (∀ ts, st.tablesCache = some ts →
            (SchemaService.getTables db st).2.1.tablesCache = some ts) ∧
        (SchemaService.getTables db st).2.1.columnsCache = st.columnsCache) ∧
    (∀ (db : DB) (st : SchemaState) (tn : String),
        (∀ ts, st.tablesCache = some ts →
            (SchemaService.getTableSchema db st tn).2.1.tablesCache = some ts) ∧
        (∀ k v, lookupAssoc st.columnsCache k = some v →
            lookupAssoc (SchemaService.getTableSchema db st tn).2.1.columnsCache k = some v)) ∧
    (∀ st : SchemaState, SchemaService.clearCache st = initState) := by
  refine ⟨?_, ?_, ?_, ?_, fun _ => rfl⟩
  · intro db st ts h
    unfold SchemaService.getTables
    rw [h]
  · intro db st tn cols h
    unfold SchemaService.getTableSchema
    rw [h]
  · intro db st
    exact ⟨fun ts h => getTables_tablesCache_stable db st ts h, getTables_columnsCache_eq db st⟩
  · intro db st tn
    constructor
    · intro ts h
      unfold SchemaService.getTableSchema
      cases hlk : lookupAssoc st.columnsCache (db.schema ++ "." ++ tn) with
      | some c => exact h
      | none =>
        simp only []
        split
        · exact getTables_tablesCache_stable db st ts h
        · exact getTables_tablesCache_stable db st ts h
    · intro k v hkv
      unfold SchemaService.getTableSchema
      cases hlk : lookupAssoc st.columnsCache (db.schema ++ "." ++ tn) with
      | some c => exact hkv
      | none =>
        have hkne : ¬ db.schema ++ "." ++ tn = k := by
          intro he
          rw [he, hkv] at hlk
          cases hlk
        simp only []
        split
        · show lookupAssoc
            (setAssoc (SchemaService.getTables db st).2.1.columnsCache
              (db.schema ++ "." ++ tn) (db.columns tn)) k = some v
          rw [lookupAssoc_setAssoc_ne _ _ _ _ hkne, getTables_columnsCache_eq db st]
          exact hkv
        · show lookupAssoc (SchemaService.getTables db st).2.1.columnsCache k = some v
          rw [getTables_columnsCache_eq db st]
          exact hkv

/-- C8 witness: each conjunct at a concrete populated state over `db0`
(tables cache filled, columns cache holding key `"SalesLT.Product"`). -/
theorem c8_witness :
    SchemaService.getTables db0 ⟨some db0.tables, [("SalesLT.Product", [])]⟩ =
      (db0.tables, ⟨some db0.tables, [("SalesLT.Product", [])]⟩, []) ∧
    SchemaService.getTableSchema db0 ⟨none, [("SalesLT.Product", [])]⟩ "Product" =
      (Except.ok [], ⟨none, [("SalesLT.Product", [])]⟩, []) ∧
    lookupAssoc ((SchemaService.getTableSchema db0 ⟨none, [("SalesLT.Product", [])]⟩
        "Other").2.1.columnsCache) "SalesLT.Product" = some [] ∧
    SchemaService.clearCache ⟨some db0.tables, [("SalesLT.Product", [])]⟩ = initState :=
  ⟨c8_theorem.1 db0 _ db0.tables rfl,
   c8_theorem.2.1 db0 _ "Product" [] (by decide),
   (c8_theorem.2.2.2.1 db0 ⟨none, [("SalesLT.Product", [])]⟩ "Other").2
     "SalesLT.Product" [] (by decide),
   c8_theorem.2.2.2.2 _⟩

/-! ## C3 — describeTable on an unknown table -/

/-- C3 counterexample: the claim says the NotFound failure is returned as
structured tool output with an error flag and never thrown past the Tool
Surface; but the `db.describeTable` handler has no catch — the error from
`getTableSchema` propagates out of the handler (`Except.error` here models
the thrown exception), and the handler itself produces no error-flagged
payload. -/
theorem c3_counterexample :
    (dbDescribeTable db0 initState "Person").1 =
      Except.error "Table not found or not allowed: SalesLT.Person" := by decide

/-- C3 amended: for a table absent from the configured schema's table list
(caches consistent with the store), the `db.describeTable` handler fails by
throwing the NotFound error, whose message identifies schema and table;
converting it to an error-flagged tool response is left to the surrounding
MCP machinery outside this repository. -/
theorem c3_amended : ∀ (db : DB) (st : SchemaState) (tn : String),
    stInv db st = true →
    (∀ t ∈ db.tables, ¬(t.tableName = tn ∧ t.schema = db.schema)) →
    (dbDescribeTable db st tn).1 =
      Except.error ("Table not found or not allowed: " ++ db.schema ++ "." ++ tn) := by
  intro db st tn hinv hnot
  simp only [dbDescribeTable]
  rw [getTableSchema_notFound db st tn hinv hnot]

/-- C3 witness: the amended theorem at `db0`, the empty caches, and the
absent table `"Person"`. -/
theorem c3_witness :
    (dbDescribeTable db0 initState "Person").1 =
      Except.error ("Table not found or not allowed: " ++ db0.schema ++ "." ++ "Person") :=
  c3_amended db0 initState "Person" (by decide) (by decide)

/-! ## C9 — primary keys filtered and sorted -/

theorem insertPK_perm (x : PrimaryKeyInfo) (l : List PrimaryKeyInfo) :
    (insertPK x l).Perm (x :: l) := by
  induction l with
  | nil => exact List.Perm.refl _
  | cons y rest ih =>
    unfold insertPK
    by_cases h : x.keyOrdinal ≤ y.keyOrdinal
    · rw [if_pos h]
    · rw [if_neg h]
      exact List.Perm.trans (List.Perm.cons y ih) (List.Perm.swap x y rest)

theorem sortPK_perm (l : List PrimaryKeyInfo) : (sortPK l).Perm l := by
  induction l with
  | nil => exact List.Perm.refl _
  | cons x rest ih =>
    exact List.Perm.trans (insertPK_perm x (sortPK rest)) (List.Perm.cons x ih)

theorem insertPK_pairwise (x : PrimaryKeyInfo) (l : List PrimaryKeyInfo)
    (h : l.Pairwise (fun a b => a.keyOrdinal ≤ b.keyOrdinal)) :
    (insertPK x l).Pairwise (fun a b => a.keyOrdinal ≤ b.keyOrdinal) := by
  induction l with
  | nil => simp [insertPK]
  | cons y rest ih =>
    rw [List.pairwise_cons] at h
    obtain ⟨hy, hrest⟩ := h
    unfold insertPK
    by_cases hle : x.keyOrdinal ≤ y.keyOrdinal
    · rw [if_pos hle, List.pairwise_cons]
      constructor
      · intro z hz
        rcases List.mem_cons.mp hz with hz | hz
        · rw [hz]; exact hle
        · exact le_trans hle (hy z hz)
      · rw [List.pairwise_cons]
        exact ⟨hy, hrest⟩
    · rw [if_neg hle, List.pairwise_cons]
      constructor
      · intro z hz
        have hz2 : z ∈ x :: rest := (insertPK_perm x rest).mem_iff.mp hz
        rcases List.mem_cons.mp hz2 with hz2 | hz2
        · subst hz2; omega
        · exact hy z hz2
      · exact ih hrest

theorem sortPK_pairwise (l : List PrimaryKeyInfo) :
    (sortPK l).Pairwise (fun a b => a.keyOrdinal ≤ b.keyOrdinal) := by
  induction l with
  | nil => simp [sortPK]
  | cons x rest ih => exact insertPK_pairwise x (sortPK rest) ih

/-- C9: every successful `db.describeTable` response carries exactly the
rows of the global primary-key list for the requested table (a permutation
of the filter), sorted by `keyOrdinal` ascending, whatever order the
backing store produced. -/
theorem c9_theorem : ∀ (db : DB) (st : SchemaState) (tn : String) (out : DescribeOutput)
    (st2 : SchemaState) (qs : List SchemaQuery),
    dbDescribeTable db st tn = (Except.ok out, st2, qs) →
    out.primaryKeys.Perm (db.primaryKeys.filter (fun pk => pk.tableName == tn)) ∧
    out.primaryKeys.Pairwise (fun a b => a.keyOrdinal ≤ b.keyOrdinal) ∧
    out.tableName = tn := by
  intro db st tn out st2 qs h
  simp only [dbDescribeTable] at h
  cases hr : (SchemaService.getTableSchema db st tn).1 with
  | error e =>
    rw [hr] at h
    cases h
  | ok cols =>
    rw [hr] at h
    injection h with h1 h2
    injection h1 with h1
    subst h1
    exact ⟨sortPK_perm _, sortPK_pairwise _, rfl⟩

/-- C9 witness: the theorem at `db1`, whose store returns the key rows of
`Product` out of order (`B` with ordinal 2 before `A` with ordinal 1). -/
theorem c9_witness :
    ({ tableName := "Product", columns := [],
       primaryKeys := [{ tableName := "Product", columnName := "A", keyOrdinal := 1 },
                       { tableName := "Product", columnName := "B", keyOrdinal := 2 }] }
        : DescribeOutput).primaryKeys.Perm
      (db1.primaryKeys.filter (fun pk => pk.tableName == "Product")) ∧
    ({ tableName := "Product", columns := [],
       primaryKeys := [{ tableName := "Product", columnName := "A", keyOrdinal := 1 },
                       { tableName := "Product", columnName := "B", keyOrdinal := 2 }] }
        : DescribeOutput).primaryKeys.Pairwise (fun a b => a.keyOrdinal ≤ b.keyOrdinal) ∧
    ({ tableName := "Product", columns := [],
       primaryKeys := [{ tableName := "Product", columnName := "A", keyOrdinal := 1 },
                       { tableName := "Product", columnName := "B", keyOrdinal := 2 }] }
        : DescribeOutput).tableName = "Product" :=
  c9_theorem db1 initState "Product" _
    ⟨some db1.tables, [("SalesLT.Product", [])]⟩
    [SchemaQuery.tablesQuery "SalesLT", SchemaQuery.columnsQuery "SalesLT" "Product",
     SchemaQuery.pkQuery "SalesLT"]
    (by decide)

/-! ## C5 — whole-word forbidden keywords: characterization of the scan -/

theorem wordChar_not_ws (c : Char) (h : isWordChar c = true) : isWsChar c = false := by
  cases hw : isWsChar c with
  | false => rfl
  | true =>
    exfalso
    simp only [isWsChar, Bool.or_eq_true, beq_iff_eq] at hw
    rcases hw with ((h1 | h1) | h1) | h1 <;> subst h1 <;> exact absurd h (by decide)

/-- The character to the left of a decomposition `pre ++ w ++ post` inside a
scan started with previous character `prev`. -/
def prevOf (prev : Option Char) (pre : List Char) : Option Char :=
  match pre.getLast? with
  | some c => some c
  | none => prev

theorem prevOf_nil (prev : Option Char) : prevOf prev [] = prev := rfl

theorem prevOf_cons (prev : Option Char) (c : Char) (pre : List Char) :
    prevOf prev (c :: pre) = prevOf (some c) pre := by
  cases pre with
  | nil => rfl
  | cons d pre2 =>
    unfold prevOf
    rw [List.getLast?_cons_cons]
    cases hg : (d :: pre2).getLast? with
    | some x => rfl
    | none => exact absurd hg (by simp)

theorem prevOf_none (pre : List Char) : prevOf none pre = pre.getLast? := by
  unfold prevOf
  cases pre.getLast? <;> rfl

theorem containsWordFrom_iff (w : List Char) (hw : w ≠ []) (text : List Char) :
    ∀ prev : Option Char,
      containsWordFrom w prev text = true ↔
      ∃ pre post, text = pre ++ w ++ post ∧
        boundOk (prevOf prev pre) = true ∧ boundOk post.head? = true := by
  induction text with
  | nil =>
    intro prev
    constructor
    · intro h
      cases h
    · rintro ⟨pre, post, heq, -, -⟩
      exfalso
      cases pre with
      | cons a b => exact absurd heq (by simp)
      | nil =>
        cases w with
        | nil => exact hw rfl
        | cons a b => exact absurd heq (by simp)
  | cons c rest ih =>
    intro prev
    unfold containsWordFrom
    rw [Bool.or_eq_true, Bool.and_eq_true, Bool.and_eq_true]
    constructor
    · rintro (⟨hb, hpre, hdrop⟩ | hrec)
      · have hp : w <+: (c :: rest) := List.isPrefixOf_iff_prefix.mp hpre
        obtain ⟨post, hpost⟩ := hp
        refine ⟨[], post, ?_, ?_, ?_⟩
        · rw [List.nil_append]
          exact hpost.symm
        · rw [prevOf_nil]
          exact hb
        · rw [← hpost, List.drop_left] at hdrop
          exact hdrop
      · obtain ⟨pre, post, heq, hb, hpost⟩ := (ih (some c)).mp hrec
        refine ⟨c :: pre, post, ?_, ?_, hpost⟩
        · subst heq
          simp
        · rw [prevOf_cons]
          exact hb
    · rintro ⟨pre, post, heq, hb, hpost⟩
      cases pre with
      | nil =>
        left
        rw [List.nil_append] at heq
        rw [prevOf_nil] at hb
        refine ⟨hb, ?_, ?_⟩
        · exact List.isPrefixOf_iff_prefix.mpr ⟨post, heq.symm⟩
        · rw [heq, List.drop_left]
          exact hpost
      | cons c2 pre2 =>
        right
        have heq2 : c :: rest = c2 :: (pre2 ++ w ++ post) := by simpa using heq
        injection heq2 with hc hrest
        subst hc
        apply (ih (some c)).mpr
        rw [prevOf_cons] at hb
        exact ⟨pre2, post, hrest, hb, hpost⟩

theorem containsWord_iff (text w : List Char) (hw : w ≠ []) :
    containsWord text w = true ↔
    ∃ pre post, text = pre ++ w ++ post ∧
      boundOk pre.getLast? = true ∧ boundOk post.head? = true := by
  unfold containsWord
  rw [containsWordFrom_iff w hw text none]
  constructor <;> rintro ⟨pre, post, h1, h2, h3⟩ <;> refine ⟨pre, post, h1, ?_, h3⟩
  · rw [prevOf_none] at h2
    exact h2
  · rw [prevOf_none]
    exact h2

theorem containsWord_of_decomp (w pre post : List Char) (hw : w ≠ [])
    (hb : boundOk pre.getLast? = true) (hpost : boundOk post.head? = true) :
    containsWord (pre ++ w ++ post) w = true :=
  (containsWord_iff _ w hw).mpr ⟨pre, post, rfl, hb, hpost⟩

/-! ## C5 — preservation of whole-word occurrences along the guard pipeline -/

theorem containsWord_ltrim_decomp (w : List Char) (hw : w ≠ [])
    (hnws : w.all (fun c => !isWsChar c) = true) :
    ∀ (pre post : List Char), boundOk pre.getLast? = true → boundOk post.head? = true →
      containsWord ((pre ++ w ++ post).dropWhile isWsChar) w = true := by
  intro pre
  induction pre with
  | nil =>
    intro post hb hpost
    cases w with
    | nil => exact absurd rfl hw
    | cons wc wrest =>
      have hwc : isWsChar wc = false := by
        have hh := List.all_eq_true.mp hnws wc (List.mem_cons_self _ _)
        simpa using hh
      rw [List.nil_append, List.cons_append,
        List.dropWhile_cons_of_neg (by rw [hwc]; exact Bool.false_ne_true)]
      have hh := containsWord_of_decomp (wc :: wrest) [] post hw (by rfl) hpost
      simpa using hh
  | cons c pre2 ih =>
    intro post hb hpost
    have hb2 : boundOk pre2.getLast? = true := by
      cases pre2 with
      | nil => rfl
      | cons d pre3 =>
        rw [List.getLast?_cons_cons] at hb
        exact hb
    by_cases hc : isWsChar c = true
    · have hstep : ((c :: pre2) ++ w ++ post).dropWhile isWsChar =
          (pre2 ++ w ++ post).dropWhile isWsChar := by
        rw [List.cons_append, List.cons_append, List.dropWhile_cons_of_pos hc]
      rw [hstep]
      exact ih post hb2 hpost
    · have hstep : ((c :: pre2) ++ w ++ post).dropWhile isWsChar =
          (c :: pre2) ++ w ++ post := by
        rw [List.cons_append, List.cons_append, List.dropWhile_cons_of_neg hc]
      rw [hstep]
      exact containsWord_of_decomp w (c :: pre2) post hw hb hpost

theorem containsWord_ltrim (l w : List Char) (hw : w ≠ [])
    (hnws : w.all (fun c => !isWsChar c) = true)
    (h : containsWord l w = true) : containsWord (l.dropWhile isWsChar) w = true := by
  obtain ⟨pre, post, heq, hb, hpost⟩ := (containsWord_iff l w hw).mp h
  rw [heq]
  exact containsWord_ltrim_decomp w hw hnws pre post hb hpost

theorem containsWord_reverse_of (l w : List Char) (hw : w ≠ [])
    (h : containsWord l w = true) : containsWord l.reverse w.reverse = true := by
  obtain ⟨pre, post, heq, hb, hpost⟩ := (containsWord_iff l w hw).mp h
  have hwr : w.reverse ≠ [] := by simpa using hw
  apply (containsWord_iff _ _ hwr).mpr
  refine ⟨post.reverse, pre.reverse, ?_, ?_, ?_⟩
  · rw [heq]
    simp [List.reverse_append]
  · rw [List.getLast?_reverse]
    exact hpost
  · rw [List.head?_reverse]
    exact hb

theorem containsWord_rtrim (l w : List Char) (hw : w ≠ [])
    (hnws : w.all (fun c => !isWsChar c) = true)
    (h : containsWord l w = true) : containsWord (rtrim l) w = true := by
  have hwr : w.reverse ≠ [] := by simpa using hw
  have hnwsr : w.reverse.all (fun c => !isWsChar c) = true := by
    rw [List.all_reverse]
    exact hnws
  have h1 := containsWord_reverse_of l w hw h
  have h2 := containsWord_ltrim _ _ hwr hnwsr h1
  have h3 := containsWord_reverse_of _ _ hwr h2
  rw [List.reverse_reverse] at h3
  exact h3

theorem containsWord_trimChars (l w : List Char) (hw : w ≠ [])
    (hnws : w.all (fun c => !isWsChar c) = true)
    (h : containsWord l w = true) : containsWord (trimChars l) w = true :=
  containsWord_rtrim _ _ hw hnws (containsWord_ltrim _ _ hw hnws h)

theorem containsWord_dropLast (l w : List Char) (hw : w ≠ [])
    (hword : w.all isWordChar = true)
    (hlast : ∃ c0, l.getLast? = some c0 ∧ isWordChar c0 = false)
    (h : containsWord l w = true) : containsWord l.dropLast w = true := by
  obtain ⟨c0, hl0, hc0⟩ := hlast
  obtain ⟨pre, post, heq, hb, hpost⟩ := (containsWord_iff l w hw).mp h
  cases post with
  | nil =>
    exfalso
    rw [heq, List.append_nil, List.getLast?_append_of_ne_nil pre hw] at hl0
    cases hwl : w.getLast? with
    | none => rw [hwl] at hl0; cases hl0
    | some cw =>
      rw [hwl] at hl0
      injection hl0 with hl0
      rw [← hl0] at hc0
      have hmem : cw ∈ w := List.mem_of_mem_getLast? hwl
      have hcw := List.all_eq_true.mp hword cw hmem
      rw [hcw] at hc0
      cases hc0
  | cons p1 postrest =>
    rw [heq, List.dropLast_append_of_ne_nil (pre ++ w) (by simp)]
    apply containsWord_of_decomp w pre _ hw hb
    cases postrest with
    | nil => rfl
    | cons p2 post3 => exact hpost

/-! ## C5 — upper-casing commutes with the pipeline -/

theorem upPairs_ws : ∀ p ∈ upPairs, isWsChar p.2 = isWsChar p.1 := by decide

theorem isWsChar_upChar (c : Char) : isWsChar (upChar c) = isWsChar c := by
  unfold upChar
  cases hf : upPairs.find? (fun p => p.1 == c) with
  | none => rfl
  | some p =>
    have hmem : p ∈ upPairs := List.mem_of_find?_eq_some hf
    have hp1 : p.1 = c := by
      have hh := List.find?_some hf
      simpa using hh
    have hws := upPairs_ws p hmem
    rw [hp1] at hws
    simpa using hws

theorem upperChars_dropWhile_ws (l : List Char) :
    upperChars (l.dropWhile isWsChar) = (upperChars l).dropWhile isWsChar := by
  induction l with
  | nil => rfl
  | cons c rest ih =>
    by_cases hc : isWsChar c = true
    · rw [List.dropWhile_cons_of_pos hc, ih,
        show upperChars (c :: rest) = upChar c :: upperChars rest from rfl,
        List.dropWhile_cons_of_pos (by rw [isWsChar_upChar]; exact hc)]
    · rw [List.dropWhile_cons_of_neg hc,
        show upperChars (c :: rest) = upChar c :: upperChars rest from rfl,
        List.dropWhile_cons_of_neg (by rw [isWsChar_upChar]; exact hc)]

theorem upperChars_reverse (l : List Char) :
    upperChars l.reverse = (upperChars l).reverse := by
  simp [upperChars, List.map_reverse]

theorem upperChars_rtrim (l : List Char) :
    upperChars (rtrim l) = rtrim (upperChars l) := by
  unfold rtrim
  rw [upperChars_reverse, upperChars_dropWhile_ws, upperChars_reverse]

theorem upperChars_trimChars (l : List Char) :
    upperChars (trimChars l) = trimChars (upperChars l) := by
  unfold trimChars ltrim
  rw [upperChars_rtrim, upperChars_dropWhile_ws]

theorem upperChars_dropLast (l : List Char) :
    upperChars l.dropLast = (upperChars l).dropLast := by
  induction l with
  | nil => rfl
  | cons c rest ih =>
    cases rest with
    | nil => rfl
    | cons d rest2 =>
      show upChar c :: upperChars ((d :: rest2).dropLast) =
        upChar c :: (upperChars (d :: rest2)).dropLast
      rw [ih]

theorem getLast?_upperChars_semi (l : List Char) (h : l.getLast? = some ';') :
    (upperChars l).getLast? = some ';' := by
  have h1 : l.reverse.head? = some ';' := by rw [List.head?_reverse]; exact h
  have h2 : (upperChars l).reverse.head? = some ';' := by
    rw [← upperChars_reverse]
    cases hr : l.reverse with
    | nil => rw [hr] at h1; cases h1
    | cons a t =>
      rw [hr] at h1
      injection h1 with h1
      subst h1
      rfl
  rw [← List.head?_reverse]
  exact h2

/-! ## C5 — the transport along the guard's normalization -/

theorem forbidden_words_facts : ∀ W ∈ forbiddenKeywords,
    W ≠ [] ∧ W.all isWordChar = true := by decide

theorem allWord_not_ws (W : List Char) (hword : W.all isWordChar = true) :
    W.all (fun c => !isWsChar c) = true := by
  rw [List.all_eq_true] at hword ⊢
  intro c hc
  have hh := wordChar_not_ws c (hword c hc)
  simp [hh]

theorem containsWord_guard_transport (s : String) (q W : List Char) (hW : W ≠ [])
    (hword : W.all isWordChar = true)
    (hq : guardNormalize s = some q)
    (h : containsWord (upperChars (stripComments s.data)) W = true) :
    containsWord (upperChars q) W = true := by
  have hnws : W.all (fun c => !isWsChar c) = true := allWord_not_ws W hword
  have h1 : containsWord (trimChars (upperChars (stripComments s.data))) W = true :=
    containsWord_trimChars _ _ hW hnws h
  rw [← upperChars_trimChars] at h1
  simp only [guardNormalize] at hq
  by_cases hsemi : (trimChars (stripComments s.data)).contains ';' = true
  · rw [hsemi, if_pos rfl] at hq
    cases hC : ((trimChars (stripComments s.data)).getLast? == some ';' &&
        !((trimChars (stripComments s.data)).dropLast.contains ';')) with
    | false =>
      rw [hC, if_neg (by simp)] at hq
      cases hq
    | true =>
      rw [hC, if_pos rfl] at hq
      injection hq with hq
      subst hq
      have hlast : (trimChars (stripComments s.data)).getLast? = some ';' := by
        simp only [Bool.and_eq_true, beq_iff_eq] at hC
        exact hC.1
      have hlastU : (upperChars (trimChars (stripComments s.data))).getLast? = some ';' :=
        getLast?_upperChars_semi _ hlast
      have h2 : containsWord ((upperChars (trimChars (stripComments s.data))).dropLast) W = true :=
        containsWord_dropLast _ _ hW hword ⟨';', hlastU, by decide⟩ h1
      rw [← upperChars_dropLast] at h2
      have h3 := containsWord_trimChars _ _ hW hnws h2
      rw [← upperChars_trimChars] at h3
      exact h3
  · have hsf : (trimChars (stripComments s.data)).contains ';' = false :=
      eq_false_of_ne_true hsemi
    rw [hsf, if_neg (by simp)] at hq
    injection hq with hq
    subst hq
    exact h1

theorem guard_forbidden_true (q W : List Char)
    (hWmem : W ∈ forbiddenKeywords ∨ W = "INTO".data)
    (hcq : containsWord (upperChars q) W = true) :
    (containsForbiddenTokens (upperChars q) ||
      containsWord (upperChars q) "INTO".data) = true := by
  rcases hWmem with h | h
  · have hft : containsForbiddenTokens (upperChars q) = true := by
      unfold containsForbiddenTokens
      exact List.any_eq_true.mpr ⟨W, h, hcq⟩
    rw [hft]
    rfl
  · have hint : containsWord (upperChars q) "INTO".data = true := by
      rw [← h]
      exact hcq
    rw [hint, Bool.or_true]

theorem guardShapeAndKeywords_forbidden (q : List Char)
    (hshape : ("SELECT".data.isPrefixOf (upperChars q) ||
      "WITH".data.isPrefixOf (upperChars q)) = true)
    (hforb : (containsForbiddenTokens (upperChars q) ||
      containsWord (upperChars q) "INTO".data) = true) :
    guardShapeAndKeywords q = GuardResult.rejected forbiddenReason := by
  unfold guardShapeAndKeywords
  rw [hshape, hforb]
  rfl

/-- C5 counterexample: the claim says any input containing a forbidden
keyword as a whole word is rejected *with the forbidden-keyword reason*;
`"DELETE FROM t"` contains the whole word DELETE yet is rejected by the
earlier statement-shape check, with the only-SELECT reason instead. -/
theorem c5_counterexample :
    containsWord (upperChars (stripComments "DELETE FROM t".data)) "DELETE".data = true ∧
    guardClassify "DELETE FROM t" = GuardResult.rejected onlySelectReason ∧
    onlySelectReason ≠ forbiddenReason := by
  exact ⟨by decide, by decide, by decide⟩

/-- C5 amended: every input whose comment-stripped upper-cased text contains
a forbidden keyword (or INTO) as a whole word is rejected by the guard —
with the forbidden-keyword reason whenever the statement-count check
passes and the SELECT/WITH prefix check succeeds (earlier checks otherwise
supply their own reasons); a forbidden word occurring only inside a longer
identifier (`DeletedFlag`) triggers nothing and the query is accepted. -/
theorem c5_amended :
    (∀ (s : String) (W : List Char), (W ∈ forbiddenKeywords ∨ W = "INTO".data) →
        containsWord (upperChars (stripComments s.data)) W = true →
        (∃ r, guardClassify s = GuardResult.rejected r) ∧
        (∀ q, guardNormalize s = some q →
            ("SELECT".data.isPrefixOf (upperChars q) ||
              "WITH".data.isPrefixOf (upperChars q)) = true →
            guardClassify s = GuardResult.rejected forbiddenReason)) ∧
    (containsSeq (upperChars "SELECT DeletedFlag FROM T".data) "DELETE".data = true ∧
      guardClassify "SELECT DeletedFlag FROM T" =
        GuardResult.accepted "SELECT DeletedFlag FROM T".data) := by
  constructor
  · intro s W hWmem hcont
    have hWf : W ≠ [] ∧ W.all isWordChar = true := by
      rcases hWmem with h | h
      · exact forbidden_words_facts W h
      · subst h
        exact ⟨by decide, by decide⟩
    constructor
    · cases hn : guardNormalize s with
      | none => exact ⟨multiStmtReason, guardClassify_eq_of_normalize_none s hn⟩
      | some q =>
        have hcq := containsWord_guard_transport s q W hWf.1 hWf.2 hn hcont
        by_cases hshape : ("SELECT".data.isPrefixOf (upperChars q) ||
            "WITH".data.isPrefixOf (upperChars q)) = true
        · refine ⟨forbiddenReason, ?_⟩
          rw [guardClassify_eq_of_normalize s q hn]
          exact guardShapeAndKeywords_forbidden q hshape (guard_forbidden_true q W hWmem hcq)
        · refine ⟨onlySelectReason, ?_⟩
          rw [guardClassify_eq_of_normalize s q hn]
          unfold guardShapeAndKeywords
          rw [eq_false_of_ne_true hshape]
          rfl
    · intro q hn hshape
      have hcq := containsWord_guard_transport s q W hWf.1 hWf.2 hn hcont
      rw [guardClassify_eq_of_normalize s q hn]
      exact guardShapeAndKeywords_forbidden q hshape (guard_forbidden_true q W hWmem hcq)
  · exact ⟨by decide, by decide⟩

/-- C5 witness: the amended theorem at the spec's own example
`"WITH x AS (SELECT 1) DELETE FROM x"`, rejected for DELETE. -/
theorem c5_witness :
    guardClassify "WITH x AS (SELECT 1) DELETE FROM x" =
      GuardResult.rejected forbiddenReason :=
  (c5_amended.1 "WITH x AS (SELECT 1) DELETE FROM x" "DELETE".data (Or.inl (by decide))
      (by decide)).2 "WITH x AS (SELECT 1) DELETE FROM x".data (by decide) (by decide)
